import Mathlib

/-!
Verification of the coolX computer-vision repository's detection logic.

The development shallowly embeds the decision logic of the two desktop
applications:

* `src/Computer Vision 1/Mining CV System/main.py` (`MiningCVSystem`):
  ore detection, safety (helmet) monitoring, equipment health assessment,
  environmental monitoring, and the bounded detection history;
* `src/Computer Vision 1/main.py` (`SmartSecurityMonitor`): the
  frame-differencing motion pipeline and its per-frame loop state;
* `src/Computer Vision 1/Mining CV System/utils.py` (`calculate_ore_value`)
  and `config.py` (the ore value table).

OpenCV primitives are embedded by their documented pixel-level semantics:
`cv2.inRange` is a per-pixel inclusive bounds check, `cv2.threshold` with
`THRESH_BINARY` maps a value to 255 iff it strictly exceeds the threshold,
`cv2.absdiff` is the per-pixel absolute difference, erosion/dilation take
the min/max over the structuring element's in-bounds window (OpenCV's
default replicated border gives the same result for a 3x3 element), and
`cv2.findContours` with `RETR_EXTERNAL` yields one contour per connected
component of the nonzero pixels.  Python floats are modelled as exact
rationals, and a contour's area by its component's pixel count (the claims
settled below depend only on zero-vs-nonzero areas and on the filtering
bound, not on the exact polygonal area measure).
-/

namespace CoolX

/-- An HSV pixel as OpenCV represents it after `cv2.cvtColor(..., COLOR_BGR2HSV)`:
hue, saturation and value channels, each an 8-bit number (hue at most 179). -/
structure HSV where
  hue : Nat
  sat : Nat
  val : Nat
 deriving DecidableEq, Repr

/-- `cv2.inRange(hsv, lo, hi)` at a single pixel: the pixel is selected iff
every channel lies within the inclusive bounds. -/
def inRangeHSV (lo hi p : HSV) : Bool :=
  decide (lo.hue ≤ p.hue) && decide (p.hue ≤ hi.hue) &&
  decide (lo.sat ≤ p.sat) && decide (p.sat ≤ hi.sat) &&
  decide (lo.val ≤ p.val) && decide (p.val ≤ hi.val)

/-- Lower bound of the rust range in `assess_equipment_health` (main.py line 357). -/
def rustLo : HSV := ⟨0, 50, 50⟩

/-- Upper bound of the rust range in `assess_equipment_health` (main.py line 357). -/
def rustHi : HSV := ⟨20, 255, 255⟩

/-- Lower bound of the dark/oil range in `assess_equipment_health` (main.py line 361). -/
def oilLo : HSV := ⟨0, 0, 0⟩

/-- Upper bound of the dark/oil range in `assess_equipment_health` (main.py line 361). -/
def oilHi : HSV := ⟨180, 255, 50⟩

/-- Lower bound of the bright range in `detect_helmet` (main.py line 307). -/
def brightLo : HSV := ⟨0, 0, 200⟩

/-- Upper bound of the bright range in `detect_helmet` (main.py line 307). -/
def brightHi : HSV := ⟨180, 30, 255⟩

/-- Result of `MiningCVSystem.assess_equipment_health` (main.py lines 348-371):
the strings "Unknown", "Rust Detected", "Oil Leak" and "Good". -/
inductive EquipHealth where
  | unknown
  | rustDetected
  | oilLeak
  | good
 deriving DecidableEq, Repr

/-- `MiningCVSystem.assess_equipment_health` (main.py lines 348-371).  The ROI
is its flattened list of HSV pixels, so `roi.size == 0` is `roi = []` and
`total_pixels = roi.shape[0] * roi.shape[1]` is `roi.length`.  Rust pixels and
dark pixels are counted with `cv2.inRange`/`cv2.countNonZero`; the rust rule is
tried first, then the oil rule (`rust_pixels > total * 0.1`,
`oil_pixels > total * 0.2`, both strict). -/
def assessEquipmentHealth (roi : List HSV) : EquipHealth :=
  if roi.length = 0 then .unknown
  else if (roi.length : ℚ) * (1 / 10) < (roi.countP (inRangeHSV rustLo rustHi) : ℚ) then
    .rustDetected
  else if (roi.length : ℚ) * (2 / 10) < (roi.countP (inRangeHSV oilLo oilHi) : ℚ) then
    .oilLeak
  else .good

/-- `MiningCVSystem.detect_helmet` (main.py lines 298-310): a zero-size ROI
returns `False`; otherwise the ROI is compliant iff the count of bright pixels
strictly exceeds 0.1 of the ROI's pixel count. -/
def detectHelmet (roi : List HSV) : Bool :=
  if roi.length = 0 then false
  else decide ((roi.length : ℚ) * (1 / 10) < (roi.countP (inRangeHSV brightLo brightHi) : ℚ))

/-- A face rectangle as returned by `detectMultiScale`: x, y, width, height. -/
structure Face where
  x : Nat
  y : Nat
  w : Nat
  h : Nat
 deriving DecidableEq, Repr

/-- The per-face outcome drawn by `MiningCVSystem.monitor_safety`: the green
"PPE Compliant" box or the red "SAFETY VIOLATION" box. -/
inductive SafetyMark where
  | compliant (f : Face)
  | violation (f : Face)
 deriving DecidableEq, Repr

/-- The annotation pass of `MiningCVSystem.monitor_safety` (main.py lines
273-296).  For each detected face, the helmet ROI `frame[y-20:y, x:x+w]` is
examined only when `y > 20` (line 275, otherwise the ROI is `None` and the
face is skipped entirely); `roiOf` abstracts the NumPy slicing that extracts
the ROI's pixels from the frame.  A face with a helmet gets the compliant
mark, a face without gets the violation mark. -/
def monitorSafetyMarks (faces : List Face) (roiOf : Face → List HSV) : List SafetyMark :=
  faces.filterMap (fun f =>
    if 20 < f.y then
      (if detectHelmet (roiOf f) then some (.compliant f) else some (.violation f))
    else none)

/-- The violations newly appended to `self.safety_violations` by one
`monitor_safety` call (main.py line 294): one record per violation mark. -/
def safetyNewViolations (faces : List Face) (roiOf : Face → List HSV) : List Face :=
  (monitorSafetyMarks faces roiOf).filterMap (fun m =>
    match m with
    | .violation f => some f
    | .compliant _ => none)

/-- The update of the `self.safety_violations` plain Python list by one
`monitor_safety` call: ordinary appends, no capacity. -/
def monitorSafetyLog (faces : List Face) (roiOf : Face → List HSV)
    (log : List Face) : List Face :=
  log ++ safetyNewViolations faces roiOf

/-- One ore class of `MiningCVSystem.__init__`'s `self.ore_types` table:
an inclusive HSV color range and a base value. -/
structure OreParams where
  loC : HSV
  hiC : HSV
  value : Nat
 deriving DecidableEq, Repr

/-- `self.ore_types` from `MiningCVSystem.__init__` (main.py lines 75-80),
in Python dict insertion order. -/
def oreTypes : List (String × OreParams) :=
  [("iron", ⟨⟨0, 50, 50⟩, ⟨20, 255, 255⟩, 100⟩),
   ("copper", ⟨⟨10, 100, 100⟩, ⟨30, 255, 255⟩, 150⟩),
   ("gold", ⟨⟨20, 100, 100⟩, ⟨40, 255, 255⟩, 500⟩),
   ("silver", ⟨⟨0, 0, 100⟩, ⟨180, 30, 255⟩, 200⟩)]

/-- The detection record logged by `MiningCVSystem.detect_ore` (main.py lines
253-259), without the wall-clock timestamp and position, which the claims
below do not constrain. -/
structure Detection where
  oreType : String
  value : Nat
  area : ℚ
 deriving DecidableEq, Repr

/-- The detections one ore type contributes in `detect_ore`'s contour loop
(main.py lines 241-260): one record per contour whose `cv2.contourArea`
strictly exceeds 500 (line 243), in contour order. -/
def orePer (name : String) (value : Nat) (areas : List ℚ) : List Detection :=
  areas.filterMap (fun a => if 500 < a then some ⟨name, value, a⟩ else none)

/-- All detections one `detect_ore` call logs (main.py lines 233-260): the
ore types in table order, and for each the qualifying contours of its
`cv2.inRange` mask.  `areasOf` abstracts `cv2.findContours`/`cv2.contourArea`
on that type's mask: the list of contour areas, in extraction order. -/
def detectOreDetections (areasOf : String → List ℚ) : List Detection :=
  oreTypes.flatMap (fun np => orePer np.1 np.2.value (areasOf np.1))

/-- One append to a Python `deque(maxlen=n)`: the new element goes to the
right, and if the deque would exceed `n` elements the leftmost (oldest) ones
are discarded. -/
def dequeAppend (maxlen : Nat) (q : List α) (x : α) : List α :=
  if maxlen < (q ++ [x]).length then (q ++ [x]).drop ((q ++ [x]).length - maxlen)
  else q ++ [x]

/-- The update of `self.detection_history = deque(maxlen=1000)` (main.py line
63) by one `detect_ore` call: each logged detection is appended to the
bounded deque in order. -/
def detectOreHistory (areasOf : String → List ℚ) (hist : List Detection) : List Detection :=
  (detectOreDetections areasOf).foldl (dequeAppend 1000) hist

/-- The areas of the contours `MiningCVSystem.monitor_equipment` annotates
(main.py lines 323-329): a contour is processed iff its area strictly
exceeds 1000.  A contour is given by its area and the flattened HSV pixels
of its bounding-box ROI `frame[y:y+h, x:x+w]`. -/
def equipmentRegionAreas (contours : List (ℚ × List HSV)) : List ℚ :=
  contours.filterMap (fun c => if 1000 < c.1 then some c.1 else none)

/-- The alerts one `monitor_equipment` call appends to
`self.equipment_alerts` (main.py lines 331-344): for each contour with area
strictly above 1000 whose assessed health is not Good, one alert record. -/
def equipmentNewAlerts (contours : List (ℚ × List HSV)) : List EquipHealth :=
  contours.filterMap (fun c =>
    if 1000 < c.1 then
      (if assessEquipmentHealth c.2 = .good then none else some (assessEquipmentHealth c.2))
    else none)

/-- The update of the `self.equipment_alerts` plain Python list by one
`monitor_equipment` call: ordinary appends, no capacity. -/
def monitorEquipmentLog (contours : List (ℚ × List HSV))
    (log : List EquipHealth) : List EquipHealth :=
  log ++ equipmentNewAlerts contours

/-- `MiningCVSystem.detect_gas` (main.py lines 402-414): gas is flagged iff
the frame's mean hue exceeds 100 or its mean saturation is below 50. -/
def detectGas (meanHue meanSat : ℚ) : Bool :=
  decide (100 < meanHue) || decide (meanSat < 50)

/-- The update of the `self.environmental_data` plain Python list by one
`monitor_environment` call (main.py lines 389-398): a record (kept here as
its dust level) is appended iff gas is detected; ordinary append, no
capacity. -/
def monitorEnvironmentLog (meanHue meanSat : ℚ) (dust : Nat) (log : List Nat) : List Nat :=
  if detectGas meanHue meanSat then log ++ [dust] else log

/-- `calculate_ore_value` from `Mining CV System/utils.py` (lines 57-65):
0.0 for an ore type absent from the configuration table, otherwise
`area * (base_value / 1000)`.  The Python dict is an association list with
distinct keys. -/
def calculate_ore_value (oreType : String) (area : ℚ) (cfg : List (String × Nat)) : ℚ :=
  match cfg.lookup oreType with
  | none => 0
  | some b => area * ((b : ℚ) / 1000)

/-- The `value` entries of `ORE_TYPES` from `Mining CV System/config.py`
(lines 23-49), in dict insertion order. -/
def oreTypesConfig : List (String × Nat) :=
  [("iron", 100), ("copper", 150), ("gold", 500), ("silver", 200), ("coal", 80)]

/-- A single-channel image (the blurred grayscale frames of the security
monitor's motion pipeline): a total intensity function on (row, column)
coordinates.  A captured frame determines the values at coordinates below
the camera's height and width; the pipeline's windowed operators take those
dimensions explicitly. -/
def Grid : Type := Nat → Nat → Nat

/-- `cv2.absdiff` (main.py of the security monitor, line 314): per-pixel
absolute difference. -/
def absdiffGrid (a b : Grid) : Grid :=
  fun i j => ((a i j : Int) - (b i j : Int)).natAbs

/-- `cv2.threshold(delta, t, 255, THRESH_BINARY)` (line 315): a pixel maps to
255 iff its value strictly exceeds the threshold, else to 0. -/
def thresholdGrid (t : Nat) (g : Grid) : Grid :=
  fun i j => if t < g i j then 255 else 0

/-- `cv2.getStructuringElement(MORPH_ELLIPSE, (3, 3))` (line 318): the 3x3
cross (the ellipse inscribed in a 3x3 box), as offsets from the anchor. -/
def ellipseKernel : List (Int × Int) :=
  [(-1, 0), (0, -1), (0, 0), (0, 1), (1, 0)]

/-- The structuring element's window at a pixel of an h-by-w frame: the
values of the in-bounds neighbors at the kernel's offsets.  At a pixel
inside the frame the anchor offset (0,0) is in bounds, so the window is
never empty there. -/
def windowVals (h w : Nat) (g : Grid) (i j : Nat) : List Nat :=
  ellipseKernel.filterMap (fun d =>
    if 0 ≤ (i : Int) + d.1 ∧ (i : Int) + d.1 < (h : Int) ∧
        0 ≤ (j : Int) + d.2 ∧ (j : Int) + d.2 < (w : Int) then
      some (g ((i : Int) + d.1).toNat ((j : Int) + d.2).toNat)
    else none)

/-- Erosion with the 3x3 element: the minimum over the window (OpenCV's
replicated border duplicates a pixel already in the window, so skipping
out-of-bounds offsets yields the same minimum). -/
def erodeGrid (h w : Nat) (g : Grid) : Grid :=
  fun i j => (windowVals h w g i j).foldl min 255

/-- Dilation with the 3x3 element: the maximum over the window. -/
def dilateGrid (h w : Nat) (g : Grid) : Grid :=
  fun i j => (windowVals h w g i j).foldl max 0

/-- `cv2.morphologyEx(thresh, MORPH_OPEN, kernel)` (line 319): erosion then
dilation. -/
def morphOpenGrid (h w : Nat) (g : Grid) : Grid :=
  dilateGrid h w (erodeGrid h w g)

/-- `cv2.morphologyEx(thresh, MORPH_CLOSE, kernel)` (line 320): dilation then
erosion. -/
def morphCloseGrid (h w : Nat) (g : Grid) : Grid :=
  erodeGrid h w (dilateGrid h w g)

/-- The binary mask the motion pipeline hands to `cv2.findContours` (lines
314-320): threshold the absolute difference at the sensitivity, then one
opening and one closing. -/
def motionMask (h w : Nat) (bg cur : Grid) (sens : Nat) : Grid :=
  morphCloseGrid h w (morphOpenGrid h w (thresholdGrid sens (absdiffGrid bg cur)))

/-- The nonzero pixels of an h-by-w mask, as (row, column) coordinates in
row-major order. -/
def cellsOf (h w : Nat) (g : Grid) : List (Nat × Nat) :=
  (List.range h).flatMap (fun i =>
    (List.range w).filterMap (fun j =>
      if g i j ≠ 0 then some (i, j) else none))

/-- 8-connectivity of mask pixels (OpenCV contours connect diagonal
neighbors). -/
def adjacent8 (p q : Nat × Nat) : Bool :=
  decide (p ≠ q) && decide (((p.1 : Int) - (q.1 : Int)).natAbs ≤ 1) &&
  decide (((p.2 : Int) - (q.2 : Int)).natAbs ≤ 1)

/-- Grow a component inside `cells` by repeatedly adding cells adjacent to
it; the fuel bounds the number of rounds. -/
def growComp (cells : List (Nat × Nat)) : Nat → List (Nat × Nat) → List (Nat × Nat)
  | 0, comp => comp
  | n + 1, comp =>
    let added := cells.filter (fun c => !comp.contains c && comp.any (fun p => adjacent8 p c))
    if added.isEmpty then comp else growComp cells n (comp ++ added)

/-- Split a worklist of cells into connected components: take a seed, grow
its component, drop it from the worklist, repeat.  The fuel bounds the
number of components. -/
def componentsAux : Nat → List (Nat × Nat) → List (List (Nat × Nat))
  | 0, _ => []
  | _ + 1, [] => []
  | n + 1, c :: rest =>
    let comp := growComp (c :: rest) (c :: rest).length [c]
    comp :: componentsAux n (rest.filter (fun x => !comp.contains x))

/-- `cv2.findContours(mask, RETR_EXTERNAL, ...)` modelled as the connected
components of the mask's nonzero pixels: one (nonempty) component per
contour, none for an all-zero mask. -/
def componentsOf (cells : List (Nat × Nat)) : List (List (Nat × Nat)) :=
  componentsAux cells.length cells

/-- The per-frame loop state of `SmartSecurityMonitor` (main.py of the
security monitor): the adaptive background reference and frame counter
(`setup_video_processing`, lines 242-243), the edge-detection flag
`self.motion_detected` and the counters (lines 60-61, 71), the events log
(line 73, each event kept as its detection number), and the slider-backed
parameters `self.sensitivity` and `self.min_area` (lines 65-66), which the
loop reads and never writes. -/
structure MonState where
  background : Option Grid
  frameCount : Nat
  motionDetected : Bool
  totalDetections : Nat
  detectionCount : Nat
  eventsLog : List Nat
  sensitivity : Nat
  minArea : Nat

/-- The motion regions one h-by-w frame yields (lines 322-335): the contours
of the motion mask whose area strictly exceeds `self.min_area`; none before
the background reference is initialized. -/
def motionRegions (h w : Nat) (s : MonState) (gray : Grid) : List (List (Nat × Nat)) :=
  match s.background with
  | none => []
  | some bg =>
    (componentsOf (cellsOf h w (motionMask h w bg gray s.sensitivity))).filter
      (fun c => decide (s.minArea < c.length))

/-- The frame's `motion_detected` flag (lines 326-330): true iff some contour
qualifies. -/
def motionOf (h w : Nat) (s : MonState) (gray : Grid) : Bool :=
  !(motionRegions h w s gray).isEmpty

/-- One iteration of `SmartSecurityMonitor.process_video` (lines 296-350) on
an already-captured frame, taking the frame's blurred grayscale `gray`
(lines 305-306; blurring and color conversion are pure library calls on the
captured frame).  If the background is uninitialized, it is set to `gray`
and the iteration ends (`continue`, lines 309-311); otherwise the motion
mask is built against the old background, the frame counter is incremented
and the background replaced on multiples of 30 (lines 337-340), the
detection counters and log advance exactly on a rising edge of motion
(lines 343-346), and `self.motion_detected` becomes this frame's flag
(line 350). -/
def stepGray (h w : Nat) (s : MonState) (gray : Grid) : MonState :=
  match s.background with
  | none => { s with background := some gray }
  | some bg =>
    let motion := motionOf h w s gray
    let fc := s.frameCount + 1
    let rising := motion && !s.motionDetected
    { s with
      background := some (if fc % 30 = 0 then gray else bg)
      frameCount := fc
      totalDetections := if rising then s.totalDetections + 1 else s.totalDetections
      detectionCount := if rising then s.detectionCount + 1 else s.detectionCount
      eventsLog := if rising then s.eventsLog ++ [s.detectionCount + 1] else s.eventsLog
      motionDetected := motion }

/-- `process_video` over a list of captured frames' grayscales, in order. -/
def runGray (h w : Nat) (s : MonState) (frames : List Grid) : MonState :=
  frames.foldl (stepGray h w) s

/-- Whether every frame of a run yields motion at its point in the
trajectory (each frame's flag is computed against the state the previous
frames produced). -/
def allMotionRun (h w : Nat) (s : MonState) : List Grid → Bool
  | [] => true
  | g :: rest => motionOf h w s g && allMotionRun h w (stepGray h w s g) rest

/-- What a loop iteration does to the loop's continuation. -/
inductive LoopControl where
  | continueLoop
  | breakLoop
 deriving DecidableEq, Repr

/-- One iteration of `SmartSecurityMonitor.process_video`'s while loop
including the camera read (lines 296-299): a failed read (`ret` false, here
`none`) executes `break`, ending the loop; a successful read processes the
frame and continues. -/
def processVideoIteration (h w : Nat) (readResult : Option Grid)
    (s : MonState) : MonState × LoopControl :=
  match readResult with
  | none => (s, .breakLoop)
  | some gray => (stepGray h w s gray, .continueLoop)

/-- The per-frame observations the mining system's library calls extract
from a captured frame: the contour areas of each ore type's color mask, the
detected faces and their helmet ROIs, the equipment contours with their ROI
pixels, and the frame's mean hue/saturation and dust level. -/
structure FrameObs where
  oreAreas : String → List ℚ
  faces : List Face
  faceRoi : Face → List HSV
  equipContours : List (ℚ × List HSV)
  meanHue : ℚ
  meanSat : ℚ
  dustLevel : Nat

/-- `self.current_module` of `MiningCVSystem` (main.py line 60). -/
inductive MiningModule where
  | oreDetection
  | safetyMonitoring
  | equipmentMonitoring
  | environmentalMonitoring
 deriving DecidableEq, Repr

/-- The mining system's processing-loop state: the active module and the
four histories (main.py lines 60-66). -/
structure MiningState where
  currentModule : MiningModule
  detectionHistory : List Detection
  safetyViolations : List Face
  equipmentAlerts : List EquipHealth
  environmentalData : List Nat

/-- `MiningCVSystem.process_frame` (main.py lines 214-225): dispatch on the
active module, updating that module's history. -/
def processFrameM (st : MiningState) (f : FrameObs) : MiningState :=
  match st.currentModule with
  | .oreDetection =>
    { st with detectionHistory := detectOreHistory f.oreAreas st.detectionHistory }
  | .safetyMonitoring =>
    { st with safetyViolations := monitorSafetyLog f.faces f.faceRoi st.safetyViolations }
  | .equipmentMonitoring =>
    { st with equipmentAlerts := monitorEquipmentLog f.equipContours st.equipmentAlerts }
  | .environmentalMonitoring =>
    { st with environmentalData :=
        monitorEnvironmentLog f.meanHue f.meanSat f.dustLevel st.environmentalData }

/-- One iteration of `MiningCVSystem.process_frames`'s while loop including
the camera read (main.py lines 196-212): a failed read (`ret` false, here
`none`) executes `continue`, leaving the state unchanged and the loop
running; a successful read processes the frame and continues. -/
def processFramesIteration (readResult : Option FrameObs)
    (st : MiningState) : MiningState × LoopControl :=
  match readResult with
  | none => (st, .continueLoop)
  | some f => (processFrameM st f, .continueLoop)

/-! ## Theorems -/

/-- C4, counterexample: the HSV pixel (0, 50, 50) lies inside both the
inclusive rust range (0,50,50)-(20,255,255) and the inclusive dark/oil range
(0,0,0)-(180,255,50), so the two color ranges of the equipment-health
classifier are not mutually exclusive as the claim states. -/
theorem C4_counterexample :
    inRangeHSV rustLo rustHi ⟨0, 50, 50⟩ = true ∧ inRangeHSV oilLo oilHi ⟨0, 50, 50⟩ = true := by
  decide

/-- C4, amended: the rust and dark/oil ranges of the equipment-health
classifier are not mutually exclusive; they overlap exactly at the pixels
with hue at most 20, saturation between 50 and 255, and value exactly 50.
Ambiguity is resolved only by the ordered evaluation (rust rule first), not
by disjointness of the ranges. -/
theorem C4_range_overlap (p : HSV) :
    (inRangeHSV rustLo rustHi p = true ∧ inRangeHSV oilLo oilHi p = true) ↔
      (p.hue ≤ 20 ∧ 50 ≤ p.sat ∧ p.sat ≤ 255 ∧ p.val = 50) := by
  simp only [inRangeHSV, rustLo, rustHi, oilLo, oilHi, Bool.and_eq_true, decide_eq_true_eq]
  omega

/-- C10: for an ore type present in the configuration table with base value
b, `calculate_ore_value` returns `area * (b / 1000)`; the value is additive
and monotone in the area; and for an ore type absent from the table it
returns exactly 0 whatever the area. -/
theorem C10_ore_value_linear (cfg : List (String × Nat)) (t : String) (b : Nat) (a a1 a2 : ℚ)
    (hmem : cfg.lookup t = some b) :
    calculate_ore_value t a cfg = a * ((b : ℚ) / 1000)
    ∧ calculate_ore_value t (a1 + a2) cfg
        = calculate_ore_value t a1 cfg + calculate_ore_value t a2 cfg
    ∧ (a1 ≤ a2 → calculate_ore_value t a1 cfg ≤ calculate_ore_value t a2 cfg)
    ∧ (∀ t2, cfg.lookup t2 = none → calculate_ore_value t2 a cfg = 0) := by
  refine ⟨?_, ?_, ?_, ?_⟩
  · simp [calculate_ore_value, hmem]
  · simp [calculate_ore_value, hmem, add_mul]
  · intro hle
    simp only [calculate_ore_value, hmem]
    have hb : (0 : ℚ) ≤ (b : ℚ) / 1000 := by positivity
    exact mul_le_mul_of_nonneg_right hle hb
  · intro t2 h2
    simp [calculate_ore_value, h2]

/-- C10, witness: the theorem applied to the gold entry of config.py's
ORE_TYPES table at concrete areas. -/
theorem C10_witness :
    calculate_ore_value "gold" 2000 oreTypesConfig = 2000 * ((500 : ℚ) / 1000)
    ∧ calculate_ore_value "gold" (3 + 4) oreTypesConfig
        = calculate_ore_value "gold" 3 oreTypesConfig + calculate_ore_value "gold" 4 oreTypesConfig
    ∧ ((3 : ℚ) ≤ 4 → calculate_ore_value "gold" 3 oreTypesConfig
        ≤ calculate_ore_value "gold" 4 oreTypesConfig)
    ∧ (∀ t2, oreTypesConfig.lookup t2 = none → calculate_ore_value t2 2000 oreTypesConfig = 0) :=
  C10_ore_value_linear oreTypesConfig "gold" 500 2000 3 4 (by decide)

/-- A concrete initial state of the security monitor's loop, as
`start_monitoring` leaves it: no background reference, all counters zero,
default sensitivity 50 and min_area 1000. -/
def monState0 : MonState := ⟨none, 0, false, 0, 0, [], 50, 1000⟩

/-- C2, counterexample: at a failed read the security monitor's video loop
executes break (it terminates), contradicting the claim that both loops
silently skip a failed read and continue. -/
theorem C2_counterexample :
    (processVideoIteration 480 640 none monState0).2 = LoopControl.breakLoop
    ∧ ¬ (processVideoIteration 480 640 none monState0).2 = LoopControl.continueLoop :=
  ⟨rfl, fun hcontra => nomatch hcontra⟩

/-- C2, amended: the mining system's processing loop silently skips a failed
frame read (state unchanged, loop continues), but the security monitor's
video loop terminates at its first failed read (break); a successful read
continues both loops. -/
theorem C2_read_failure (hh ww : Nat) :
    (∀ st : MiningState, processFramesIteration none st = (st, .continueLoop))
    ∧ (∀ s : MonState, processVideoIteration hh ww none s = (s, .breakLoop))
    ∧ (∀ (st : MiningState) (f : FrameObs),
        (processFramesIteration (some f) st).2 = .continueLoop)
    ∧ (∀ (s : MonState) (g : Grid),
        (processVideoIteration hh ww (some g) s).2 = .continueLoop) :=
  ⟨fun _ => rfl, fun _ => rfl, fun _ _ => rfl, fun _ _ => rfl⟩

/-- C9: a detected face whose top edge is within 20 pixels of the top of the
frame (y at most 20) is skipped entirely by `monitor_safety`: whatever ROI
extraction the frame would give, the face produces no compliance or
violation mark and leaves the violation history unchanged; and a helmet
check on a zero-size region returns non-compliant (False) rather than
raising. -/
theorem C9_top_face_skipped (f : Face) (rest : List Face) (roiOf : Face → List HSV)
    (hy : f.y ≤ 20) :
    monitorSafetyMarks (f :: rest) roiOf = monitorSafetyMarks rest roiOf
    ∧ (∀ log, monitorSafetyLog (f :: rest) roiOf log = monitorSafetyLog rest roiOf log)
    ∧ detectHelmet [] = false := by
  have h20 : ¬ 20 < f.y := by omega
  have hmarks : monitorSafetyMarks (f :: rest) roiOf = monitorSafetyMarks rest roiOf := by
    simp [monitorSafetyMarks, List.filterMap_cons, h20]
  refine ⟨hmarks, ?_, rfl⟩
  intro log
  simp [monitorSafetyLog, safetyNewViolations, hmarks]

/-- C9, witness: the theorem at a concrete face on the boundary (y = 20)
with an empty helmet ROI. -/
theorem C9_witness :
    monitorSafetyMarks [⟨3, 20, 5, 5⟩] (fun _ => []) = monitorSafetyMarks [] (fun _ => [])
    ∧ (∀ log, monitorSafetyLog [⟨3, 20, 5, 5⟩] (fun _ => []) log
        = monitorSafetyLog [] (fun _ => []) log)
    ∧ detectHelmet [] = false :=
  C9_top_face_skipped ⟨3, 20, 5, 5⟩ [] (fun _ => []) (by decide)

/-- One bounded append yields a length of min (old length + 1) maxlen. -/
theorem dequeAppend_length (n : Nat) (q : List α) (x : α) :
    (dequeAppend n q x).length = min (q.length + 1) n := by
  unfold dequeAppend
  split <;> rename_i hc <;>
    simp only [List.length_drop, List.length_append, List.length_cons,
      List.length_nil] at hc ⊢ <;> omega

/-- A fold of bounded appends never exceeds the capacity. -/
theorem foldl_dequeAppend_le (n : Nat) (l : List α) (q : List α) (hq : q.length ≤ n) :
    (l.foldl (dequeAppend n) q).length ≤ n := by
  induction l generalizing q with
  | nil => simpa using hq
  | cons a t ih =>
    refine ih (dequeAppend n q a) ?_
    rw [dequeAppend_length]
    omega

/-- C3, counterexample: the safety-violation history is a plain Python list;
appending a violation to a history already holding 1000 records keeps all
1000 and yields 1001 records, evicting nothing, so the bounded-with-eviction
property claimed for it fails. -/
theorem C3_counterexample :
    monitorSafetyLog [⟨0, 21, 10, 10⟩] (fun _ => [])
        (List.replicate 1000 (⟨0, 0, 0, 0⟩ : Face))
      = List.replicate 1000 (⟨0, 0, 0, 0⟩ : Face) ++ [⟨0, 21, 10, 10⟩]
    ∧ (monitorSafetyLog [⟨0, 21, 10, 10⟩] (fun _ => [])
        (List.replicate 1000 (⟨0, 0, 0, 0⟩ : Face))).length = 1001 := by
  have hnew : safetyNewViolations [⟨0, 21, 10, 10⟩] (fun _ => []) = [⟨0, 21, 10, 10⟩] := by
    decide
  constructor
  · rw [monitorSafetyLog, hnew]
  · rw [monitorSafetyLog, hnew, List.length_append, List.length_replicate,
      List.length_cons, List.length_nil]

/-- C3, amended: the ore-detection history is bounded: after any sequence of
appends that starts within capacity it holds at most 1000 records, and an
append at capacity drops the oldest record; the safety-violation,
equipment-alert and environmental histories are plain lists that only ever
append (they never evict and are unbounded). -/
theorem C3_history_bounds (areasOf : String → List ℚ) (hist : List Detection)
    (hcap : hist.length ≤ 1000) :
    (detectOreHistory areasOf hist).length ≤ 1000
    ∧ (∀ (q : List Detection) (d : Detection), q.length = 1000 →
        dequeAppend 1000 q d = q.drop 1 ++ [d])
    ∧ (∀ faces roiOf log,
        monitorSafetyLog faces roiOf log = log ++ safetyNewViolations faces roiOf)
    ∧ (∀ contours log,
        monitorEquipmentLog contours log = log ++ equipmentNewAlerts contours)
    ∧ (∀ (mh ms : ℚ) (dust : Nat) (log : List Nat), ∃ tail,
        monitorEnvironmentLog mh ms dust log = log ++ tail) := by
  refine ⟨foldl_dequeAppend_le 1000 _ hist hcap, ?_, fun _ _ _ => rfl, fun _ _ => rfl, ?_⟩
  · intro q d hq
    unfold dequeAppend
    have h1 : (q ++ [d]).length = 1001 := by simp [hq]
    rw [if_pos (by rw [h1]; omega), h1]
    have h2 : (1001 : Nat) - 1000 = 1 := by norm_num
    rw [h2, List.drop_append_eq_append_drop]
    have h3 : 1 - q.length = 0 := by omega
    rw [h3, List.drop_zero]
  · intro mh ms dust log
    by_cases hgas : detectGas mh ms = true
    · exact ⟨[dust], by simp [monitorEnvironmentLog, hgas]⟩
    · exact ⟨[], by simp [monitorEnvironmentLog, hgas]⟩

/-- C3, witness: the theorem applied from an empty ore history and a
one-contour frame. -/
theorem C3_witness :
    (detectOreHistory (fun _ => [(600 : ℚ)]) []).length ≤ 1000
    ∧ (∀ (q : List Detection) (d : Detection), q.length = 1000 →
        dequeAppend 1000 q d = q.drop 1 ++ [d])
    ∧ (∀ faces roiOf log,
        monitorSafetyLog faces roiOf log = log ++ safetyNewViolations faces roiOf)
    ∧ (∀ contours log,
        monitorEquipmentLog contours log = log ++ equipmentNewAlerts contours)
    ∧ (∀ (mh ms : ℚ) (dust : Nat) (log : List Nat), ∃ tail,
        monitorEnvironmentLog mh ms dust log = log ++ tail) :=
  C3_history_bounds (fun _ => [(600 : ℚ)]) [] (by decide)

/-- C7: the equipment classifier follows the ordered rules with the exact
thresholds: on a non-empty ROI it returns the rust alert iff the
rust-colored pixel count strictly exceeds 0.1 of the pixel count, else the
oil-leak alert iff the dark pixel count strictly exceeds 0.2 of the pixel
count, else the normal (Good) label; and on a non-empty helmet ROI the
check is compliant iff the bright-pixel count strictly exceeds 0.1 of the
ROI's pixel count. -/
theorem C7_ordered_label_rules (roi roiH : List HSV) (h1 : roi ≠ []) (h2 : roiH ≠ []) :
    (assessEquipmentHealth roi = .rustDetected ↔
        (roi.length : ℚ) * (1 / 10) < (roi.countP (inRangeHSV rustLo rustHi) : ℚ))
    ∧ (assessEquipmentHealth roi = .oilLeak ↔
        ¬ ((roi.length : ℚ) * (1 / 10) < (roi.countP (inRangeHSV rustLo rustHi) : ℚ))
        ∧ (roi.length : ℚ) * (2 / 10) < (roi.countP (inRangeHSV oilLo oilHi) : ℚ))
    ∧ (assessEquipmentHealth roi = .good ↔
        ¬ ((roi.length : ℚ) * (1 / 10) < (roi.countP (inRangeHSV rustLo rustHi) : ℚ))
        ∧ ¬ ((roi.length : ℚ) * (2 / 10) < (roi.countP (inRangeHSV oilLo oilHi) : ℚ)))
    ∧ (detectHelmet roiH = true ↔
        (roiH.length : ℚ) * (1 / 10) < (roiH.countP (inRangeHSV brightLo brightHi) : ℚ)) := by
  have hl : ¬ roi.length = 0 := by simpa using h1
  have hlH : ¬ roiH.length = 0 := by simpa using h2
  unfold assessEquipmentHealth detectHelmet
  rw [if_neg hl, if_neg hlH]
  refine ⟨?_, ?_, ?_, by rw [decide_eq_true_eq]⟩ <;>
    by_cases hr : (roi.length : ℚ) * (1 / 10) < (roi.countP (inRangeHSV rustLo rustHi) : ℚ)
  · rw [if_pos hr]
    exact iff_of_true rfl hr
  · rw [if_neg hr]
    by_cases ho : (roi.length : ℚ) * (2 / 10) < (roi.countP (inRangeHSV oilLo oilHi) : ℚ)
    · rw [if_pos ho]
      exact iff_of_false (fun heq => nomatch heq) hr
    · rw [if_neg ho]
      exact iff_of_false (fun heq => nomatch heq) hr
  · rw [if_pos hr]
    exact iff_of_false (fun heq => nomatch heq) (fun hand => hand.1 hr)
  · rw [if_neg hr]
    by_cases ho : (roi.length : ℚ) * (2 / 10) < (roi.countP (inRangeHSV oilLo oilHi) : ℚ)
    · rw [if_pos ho]
      exact iff_of_true rfl ⟨hr, ho⟩
    · rw [if_neg ho]
      exact iff_of_false (fun heq => nomatch heq) (fun hand => ho hand.2)
  · rw [if_pos hr]
    exact iff_of_false (fun heq => nomatch heq) (fun hand => hand.1 hr)
  · rw [if_neg hr]
    by_cases ho : (roi.length : ℚ) * (2 / 10) < (roi.countP (inRangeHSV oilLo oilHi) : ℚ)
    · rw [if_pos ho]
      exact iff_of_false (fun heq => nomatch heq) (fun hand => hand.2 ho)
    · rw [if_neg ho]
      exact iff_of_true rfl ⟨hr, ho⟩

/-- C7, witness: the theorem at a one-pixel rust-colored equipment ROI and a
one-pixel bright helmet ROI. -/
theorem C7_witness :
    (assessEquipmentHealth [⟨0, 50, 50⟩] = .rustDetected ↔
        (([⟨0, 50, 50⟩] : List HSV).length : ℚ) * (1 / 10)
          < (([⟨0, 50, 50⟩] : List HSV).countP (inRangeHSV rustLo rustHi) : ℚ))
    ∧ (assessEquipmentHealth [⟨0, 50, 50⟩] = .oilLeak ↔
        ¬ ((([⟨0, 50, 50⟩] : List HSV).length : ℚ) * (1 / 10)
            < (([⟨0, 50, 50⟩] : List HSV).countP (inRangeHSV rustLo rustHi) : ℚ))
        ∧ (([⟨0, 50, 50⟩] : List HSV).length : ℚ) * (2 / 10)
            < (([⟨0, 50, 50⟩] : List HSV).countP (inRangeHSV oilLo oilHi) : ℚ))
    ∧ (assessEquipmentHealth [⟨0, 50, 50⟩] = .good ↔
        ¬ ((([⟨0, 50, 50⟩] : List HSV).length : ℚ) * (1 / 10)
            < (([⟨0, 50, 50⟩] : List HSV).countP (inRangeHSV rustLo rustHi) : ℚ))
        ∧ ¬ ((([⟨0, 50, 50⟩] : List HSV).length : ℚ) * (2 / 10)
            < (([⟨0, 50, 50⟩] : List HSV).countP (inRangeHSV oilLo oilHi) : ℚ)))
    ∧ (detectHelmet [⟨0, 0, 255⟩] = true ↔
        (([⟨0, 0, 255⟩] : List HSV).length : ℚ) * (1 / 10)
          < (([⟨0, 0, 255⟩] : List HSV).countP (inRangeHSV brightLo brightHi) : ℚ)) :=
  C7_ordered_label_rules [⟨0, 50, 50⟩] [⟨0, 0, 255⟩] (by simp) (by simp)

/-- One ore type's detection list is the image of the strictly-qualifying
areas. -/
theorem orePer_eq (n : String) (v : Nat) (l : List ℚ) :
    orePer n v l = (l.filter (fun a => decide ((500 : ℚ) < a))).map
      (fun a => (⟨n, v, a⟩ : Detection)) := by
  unfold orePer
  induction l with
  | nil => rfl
  | cons a t ih =>
    rw [List.filterMap_cons, List.filter_cons]
    by_cases h : (500 : ℚ) < a
    · simp [h, ih]
    · simp [h, ih]

/-- Filtering one ore type's detections by its own name keeps them all. -/
theorem orePer_filter_self (n : String) (v : Nat) (l : List ℚ) :
    (orePer n v l).filter (fun d => decide (d.oreType = n)) = orePer n v l := by
  rw [orePer_eq, List.filter_map]
  have hcomp : ((fun d : Detection => decide (d.oreType = n)) ∘
      fun a : ℚ => (⟨n, v, a⟩ : Detection)) = fun _ => true := by
    funext a
    simp
  rw [hcomp, List.filter_true, ← orePer_eq]

/-- Filtering one ore type's detections by another name drops them all. -/
theorem orePer_filter_other (n m : String) (v : Nat) (l : List ℚ) (hnm : n ≠ m) :
    (orePer n v l).filter (fun d => decide (d.oreType = m)) = [] := by
  rw [orePer_eq, List.filter_map]
  have hcomp : ((fun d : Detection => decide (d.oreType = m)) ∘
      fun a : ℚ => (⟨n, v, a⟩ : Detection)) = fun _ => false := by
    funext a
    simp [hnm]
  rw [hcomp, List.filter_false, List.map_nil]

/-- The areas of one ore type's detections are the qualifying input areas. -/
theorem orePer_map_area (n : String) (v : Nat) (l : List ℚ) :
    (orePer n v l).map Detection.area = l.filter (fun a => decide ((500 : ℚ) < a)) := by
  rw [orePer_eq, List.map_map]
  rw [show (Detection.area ∘ fun a : ℚ => (⟨n, v, a⟩ : Detection)) = id from rfl, List.map_id]

/-- `detect_ore`'s full detection list, type by type. -/
theorem detectOreDetections_eq (areasOf : String → List ℚ) :
    detectOreDetections areasOf
      = orePer "iron" 100 (areasOf "iron") ++ (orePer "copper" 150 (areasOf "copper")
        ++ (orePer "gold" 500 (areasOf "gold")
          ++ (orePer "silver" 200 (areasOf "silver") ++ []))) := rfl

/-- C1, counterexample: a contour whose area is exactly the configured
minimum is not emitted: an ore contour of area exactly 500 produces no
detection for any ore type, and an equipment contour of area exactly 1000
is not annotated, contradicting the claim that a region whose area equals
the minimum is emitted. -/
theorem C1_counterexample :
    detectOreDetections (fun _ => [(500 : ℚ)]) = []
    ∧ equipmentRegionAreas [((1000 : ℚ), ([] : List HSV))] = [] :=
  ⟨by decide, by decide⟩

/-- C1, amended: every extractor emits exactly the regions whose area
strictly exceeds its configured minimum (ore 500, equipment 1000, motion
min_area), each exactly once and in extraction order; a region whose area
equals the minimum is not emitted, and no region with area at or below the
minimum is ever emitted. -/
theorem C1_strict_area_filter (hh ww : Nat) :
    (∀ (areasOf : String → List ℚ) (name : String) (p : OreParams),
        (name, p) ∈ oreTypes →
        ((detectOreDetections areasOf).filter
            (fun d => decide (d.oreType = name))).map Detection.area
          = (areasOf name).filter (fun a => decide ((500 : ℚ) < a)))
    ∧ (∀ (areasOf : String → List ℚ) (d : Detection),
        d ∈ detectOreDetections areasOf → 500 < d.area)
    ∧ (∀ contours : List (ℚ × List HSV),
        equipmentRegionAreas contours
          = (contours.map Prod.fst).filter (fun a => decide ((1000 : ℚ) < a)))
    ∧ (∀ (s : MonState) (g : Grid) (c : List (Nat × Nat)),
        c ∈ motionRegions hh ww s g → s.minArea < c.length) := by
  refine ⟨?_, ?_, ?_, ?_⟩
  · intro areasOf name p hmem
    fin_cases hmem
    · rw [detectOreDetections_eq, List.filter_append, List.filter_append, List.filter_append,
        List.filter_append, orePer_filter_self,
        orePer_filter_other "copper" "iron" 150 (areasOf "copper") (by decide),
        orePer_filter_other "gold" "iron" 500 (areasOf "gold") (by decide),
        orePer_filter_other "silver" "iron" 200 (areasOf "silver") (by decide)]
      simp [orePer_map_area]
    · rw [detectOreDetections_eq, List.filter_append, List.filter_append, List.filter_append,
        List.filter_append,
        orePer_filter_other "iron" "copper" 100 (areasOf "iron") (by decide),
        orePer_filter_self,
        orePer_filter_other "gold" "copper" 500 (areasOf "gold") (by decide),
        orePer_filter_other "silver" "copper" 200 (areasOf "silver") (by decide)]
      simp [orePer_map_area]
    · rw [detectOreDetections_eq, List.filter_append, List.filter_append, List.filter_append,
        List.filter_append,
        orePer_filter_other "iron" "gold" 100 (areasOf "iron") (by decide),
        orePer_filter_other "copper" "gold" 150 (areasOf "copper") (by decide),
        orePer_filter_self,
        orePer_filter_other "silver" "gold" 200 (areasOf "silver") (by decide)]
      simp [orePer_map_area]
    · rw [detectOreDetections_eq, List.filter_append, List.filter_append, List.filter_append,
        List.filter_append,
        orePer_filter_other "iron" "silver" 100 (areasOf "iron") (by decide),
        orePer_filter_other "copper" "silver" 150 (areasOf "copper") (by decide),
        orePer_filter_other "gold" "silver" 500 (areasOf "gold") (by decide),
        orePer_filter_self]
      simp [orePer_map_area]
  · intro areasOf d hd
    rw [detectOreDetections_eq] at hd
    simp only [List.mem_append, List.not_mem_nil, or_false] at hd
    have harea : ∀ (n : String) (v : Nat) (l : List ℚ), d ∈ orePer n v l → 500 < d.area := by
      intro n v l hmem
      rw [orePer_eq] at hmem
      obtain ⟨a, ha, rfl⟩ := List.mem_map.mp hmem
      exact of_decide_eq_true (List.mem_filter.mp ha).2
    rcases hd with h | h | h | h
    · exact harea _ _ _ h
    · exact harea _ _ _ h
    · exact harea _ _ _ h
    · exact harea _ _ _ h
  · intro contours
    unfold equipmentRegionAreas
    induction contours with
    | nil => rfl
    | cons c t ih =>
      rw [List.filterMap_cons, List.map_cons, List.filter_cons]
      by_cases h : (1000 : ℚ) < c.1
      · simp [h, ih]
      · simp [h, ih]
  · intro s g c hc
    cases hbg : s.background with
    | none => simp [motionRegions, hbg] at hc
    | some bg =>
      simp only [motionRegions, hbg] at hc
      exact of_decide_eq_true (List.mem_filter.mp hc).2

/-- `stepGray` with an uninitialized background only sets the reference. -/
theorem stepGray_none (h w : Nat) (s : MonState) (g : Grid) (hbg : s.background = none) :
    stepGray h w s g = { s with background := some g } := by
  unfold stepGray
  rw [hbg]

/-- `stepGray` with an initialized background, written as one structure
update. -/
theorem stepGray_some (h w : Nat) (s : MonState) (g bg : Grid) (hbg : s.background = some bg) :
    stepGray h w s g = { s with
      background := some (if (s.frameCount + 1) % 30 = 0 then g else bg)
      frameCount := s.frameCount + 1
      totalDetections :=
        if motionOf h w s g && !s.motionDetected then s.totalDetections + 1
        else s.totalDetections
      detectionCount :=
        if motionOf h w s g && !s.motionDetected then s.detectionCount + 1
        else s.detectionCount
      eventsLog :=
        if motionOf h w s g && !s.motionDetected then s.eventsLog ++ [s.detectionCount + 1]
        else s.eventsLog
      motionDetected := motionOf h w s g } := by
  unfold stepGray
  rw [hbg]

/-- A frame that yields motion presupposes an initialized background. -/
theorem background_some_of_motion (h w : Nat) (s : MonState) (g : Grid)
    (hm : motionOf h w s g = true) : ∃ bg, s.background = some bg := by
  cases hbg : s.background with
  | none => simp [motionOf, motionRegions, hbg] at hm
  | some bg => exact ⟨bg, rfl⟩

/-- `runGray` on a cons steps once and continues. -/
theorem runGray_cons (h w : Nat) (s : MonState) (g : Grid) (t : List Grid) :
    runGray h w s (g :: t) = runGray h w (stepGray h w s g) t := rfl

/-- Processing a block of frames whose last one lands the frame counter on a
multiple of 30 leaves exactly that last frame as the background reference. -/
theorem runGray_boundary (h w : Nat) (l : List Grid) :
    ∀ s : MonState, s.background.isSome = true →
      (s.frameCount + l.length + 1) % 30 = 0 → l.length + 1 ≤ 30 →
      ∀ g, (runGray h w s (l ++ [g])).background = some g := by
  induction l with
  | nil =>
    intro s hbs hmod _ g
    obtain ⟨bg, hbg⟩ := Option.isSome_iff_exists.mp hbs
    have hfc : (s.frameCount + 1) % 30 = 0 := by simpa using hmod
    rw [List.nil_append, runGray_cons, stepGray_some h w s g bg hbg]
    show some (if (s.frameCount + 1) % 30 = 0 then g else bg) = some g
    rw [if_pos hfc]
  | cons a t ih =>
    intro s hbs hmod hle g
    obtain ⟨bg, hbg⟩ := Option.isSome_iff_exists.mp hbs
    rw [List.cons_append, runGray_cons]
    simp only [List.length_cons] at hmod hle
    apply ih
    · rw [stepGray_some h w s a bg hbg]
      rfl
    · rw [stepGray_some h w s a bg hbg]
      show (s.frameCount + 1 + t.length + 1) % 30 = 0
      omega
    · omega

/-- C5: in the security monitor's per-frame step, the background reference
is replaced by the current blurred grayscale frame exactly when the
incremented frame counter reaches a multiple of 30, is left unchanged by
every other frame, and therefore after exactly 30 processed frames from a
fresh counter the reference equals the frame processed at that boundary. -/
theorem C5_background_adaptation (hh ww : Nat) :
    (∀ (s : MonState) (g bg : Grid), s.background = some bg →
        (s.frameCount + 1) % 30 = 0 → (stepGray hh ww s g).background = some g)
    ∧ (∀ (s : MonState) (g bg : Grid), s.background = some bg →
        (s.frameCount + 1) % 30 ≠ 0 → (stepGray hh ww s g).background = some bg)
    ∧ (∀ (s : MonState) (bg : Grid) (l : List Grid) (g : Grid),
        s.background = some bg → s.frameCount = 0 → l.length = 29 →
        (runGray hh ww s (l ++ [g])).background = some g) := by
  refine ⟨?_, ?_, ?_⟩
  · intro s g bg hbg hfc
    rw [stepGray_some hh ww s g bg hbg]
    show some (if (s.frameCount + 1) % 30 = 0 then g else bg) = some g
    rw [if_pos hfc]
  · intro s g bg hbg hfc
    rw [stepGray_some hh ww s g bg hbg]
    show some (if (s.frameCount + 1) % 30 = 0 then g else bg) = some bg
    rw [if_neg hfc]
  · intro s bg l g hbg hfc hlen
    apply runGray_boundary
    · rw [hbg]
      rfl
    · rw [hfc, hlen]
    · omega

/-- A fold of minima from 0 stays 0. -/
theorem foldl_min_zero (l : List Nat) : l.foldl min 0 = 0 := by
  induction l with
  | nil => rfl
  | cons a t ih =>
    rw [List.foldl_cons, Nat.zero_min]
    exact ih

/-- A fold of maxima from 0 over zeros is 0. -/
theorem foldl_max_zero (l : List Nat) (hl : ∀ x ∈ l, x = 0) : l.foldl max 0 = 0 := by
  induction l with
  | nil => rfl
  | cons a t ih =>
    rw [List.foldl_cons, hl a (List.mem_cons_self a t)]
    exact ih fun x hx => hl x (List.mem_cons_of_mem a hx)

/-- A fold of minima from 255 over a nonempty list of zeros is 0. -/
theorem foldl_min_255_zero (l : List Nat) (hl : ∀ x ∈ l, x = 0) (hne : l ≠ []) :
    l.foldl min 255 = 0 := by
  cases l with
  | nil => exact absurd rfl hne
  | cons a t =>
    rw [List.foldl_cons, hl a (List.mem_cons_self a t)]
    exact foldl_min_zero t

/-- Every window value is a mask value at an in-bounds pixel. -/
theorem windowVals_zero (h w : Nat) (m : Grid) (hm : ∀ i j, i < h → j < w → m i j = 0)
    (i j : Nat) : ∀ x ∈ windowVals h w m i j, x = 0 := by
  intro x hx
  unfold windowVals at hx
  obtain ⟨d, _, hmem⟩ := List.mem_filterMap.mp hx
  split at hmem
  · rename_i hcond
    cases hmem
    apply hm
    · omega
    · omega
  · cases hmem

/-- At an in-bounds pixel the window holds the pixel's own value (offset
(0,0) is always admissible there). -/
theorem windowVals_mem_anchor (h w : Nat) (m : Grid) (i j : Nat) (hi : i < h) (hj : j < w) :
    m i j ∈ windowVals h w m i j := by
  unfold windowVals
  apply List.mem_filterMap.mpr
  refine ⟨(0, 0), by simp [ellipseKernel], ?_⟩
  rw [if_pos (by constructor <;> [omega; constructor] <;> [omega; constructor] <;> omega)]
  simp

/-- Dilation of a mask that is zero on the frame is zero everywhere. -/
theorem dilateGrid_zero (h w : Nat) (m : Grid)
    (hm : ∀ i j, i < h → j < w → m i j = 0) : ∀ i j, dilateGrid h w m i j = 0 := by
  intro i j
  exact foldl_max_zero _ (windowVals_zero h w m hm i j)

/-- Erosion of a mask that is zero on the frame is zero on the frame. -/
theorem erodeGrid_zero (h w : Nat) (m : Grid)
    (hm : ∀ i j, i < h → j < w → m i j = 0) :
    ∀ i j, i < h → j < w → erodeGrid h w m i j = 0 := by
  intro i j hi hj
  apply foldl_min_255_zero _ (windowVals_zero h w m hm i j)
  intro hnil
  have hanchor := windowVals_mem_anchor h w m i j hi hj
  rw [hnil] at hanchor
  exact List.not_mem_nil _ hanchor

/-- A mask that is zero on the frame has no nonzero cells. -/
theorem cellsOf_eq_nil (h w : Nat) (g : Grid) (hg : ∀ i j, i < h → j < w → g i j = 0) :
    cellsOf h w g = [] := by
  unfold cellsOf
  rw [List.flatMap_eq_nil_iff]
  intro i hi
  rw [List.filterMap_eq_nil_iff]
  intro j hj
  rw [if_neg]
  simp only [ne_eq, not_not]
  exact hg i j (List.mem_range.mp hi) (List.mem_range.mp hj)

/-- C6: for a frame whose blurred grayscale equals the current background
reference, the absolute difference is zero everywhere, the thresholded mask
is all zero for any sensitivity in the slider's range 10-100, opening and
closing keep the mask all zero on the frame, and no motion region is
detected. -/
theorem C6_identical_frame_no_motion (hh ww : Nat) (s : MonState) (g : Grid)
    (hbg : s.background = some g) (_hs1 : 10 ≤ s.sensitivity) (_hs2 : s.sensitivity ≤ 100) :
    (∀ i j, absdiffGrid g g i j = 0)
    ∧ (∀ i j, thresholdGrid s.sensitivity (absdiffGrid g g) i j = 0)
    ∧ (∀ i j, i < hh → j < ww → motionMask hh ww g g s.sensitivity i j = 0)
    ∧ motionRegions hh ww s g = []
    ∧ motionOf hh ww s g = false := by
  have habs : ∀ i j, absdiffGrid g g i j = 0 := by
    intro i j
    simp [absdiffGrid]
  have hth : ∀ i j, thresholdGrid s.sensitivity (absdiffGrid g g) i j = 0 := by
    intro i j
    rw [thresholdGrid, habs i j, if_neg (Nat.not_lt_zero _)]
  have hopen : ∀ i j, morphOpenGrid hh ww (thresholdGrid s.sensitivity (absdiffGrid g g)) i j
      = 0 :=
    dilateGrid_zero hh ww _ (erodeGrid_zero hh ww _ fun i j _ _ => hth i j)
  have hmask : ∀ i j, i < hh → j < ww → motionMask hh ww g g s.sensitivity i j = 0 :=
    erodeGrid_zero hh ww _ fun i j _ _ =>
      dilateGrid_zero hh ww _ (fun a b _ _ => hopen a b) i j
  have hcells : cellsOf hh ww (motionMask hh ww g g s.sensitivity) = [] :=
    cellsOf_eq_nil hh ww _ hmask
  have hreg : motionRegions hh ww s g = [] := by
    simp only [motionRegions, hbg, hcells]
    rfl
  refine ⟨habs, hth, hmask, hreg, ?_⟩
  rw [motionOf, hreg]
  rfl

/-- An all-zero one-by-one reference frame. -/
def gridZero : Grid := fun _ _ => 0

/-- A concrete monitor state whose background reference is the all-zero
frame, with sensitivity 50 and min_area 1000. -/
def monStateRef : MonState := ⟨some gridZero, 0, false, 0, 0, [], 50, 1000⟩

/-- C6, witness: the theorem at the concrete state whose reference is the
all-zero frame, fed that same frame. -/
theorem C6_witness :
    (∀ i j, absdiffGrid gridZero gridZero i j = 0)
    ∧ (∀ i j, thresholdGrid monStateRef.sensitivity (absdiffGrid gridZero gridZero) i j = 0)
    ∧ (∀ i j, i < 1 → j < 1 → motionMask 1 1 gridZero gridZero monStateRef.sensitivity i j = 0)
    ∧ motionRegions 1 1 monStateRef gridZero = []
    ∧ motionOf 1 1 monStateRef gridZero = false :=
  C6_identical_frame_no_motion 1 1 monStateRef gridZero rfl (by decide) (by decide)

/-- Along a run in which every frame yields motion, a state already flagged
as in-motion accumulates no further detections and no further log entries,
and stays flagged. -/
theorem runGray_steady (h w : Nat) (frames : List Grid) :
    ∀ s : MonState, s.motionDetected = true → allMotionRun h w s frames = true →
      (runGray h w s frames).totalDetections = s.totalDetections
      ∧ (runGray h w s frames).eventsLog = s.eventsLog
      ∧ (runGray h w s frames).motionDetected = true := by
  induction frames with
  | nil => exact fun s hmd _ => ⟨rfl, rfl, hmd⟩
  | cons g t ih =>
    intro s hmd hall
    rw [allMotionRun] at hall
    obtain ⟨hm, hrest⟩ := Bool.and_eq_true_iff.mp hall
    obtain ⟨bg, hbg⟩ := background_some_of_motion h w s g hm
    have hstep := stepGray_some h w s g bg hbg
    have hmd2 : (stepGray h w s g).motionDetected = true := by
      rw [hstep]
      exact hm
    obtain ⟨h1, h2, h3⟩ := ih (stepGray h w s g) hmd2 hrest
    rw [runGray_cons]
    refine ⟨?_, ?_, h3⟩
    · rw [h1, hstep]
      show (if motionOf h w s g && !s.motionDetected then s.totalDetections + 1
        else s.totalDetections) = s.totalDetections
      rw [hmd]
      simp
    · rw [h2, hstep]
      show (if motionOf h w s g && !s.motionDetected then s.eventsLog ++ [s.detectionCount + 1]
        else s.eventsLog) = s.eventsLog
      rw [hmd]
      simp

/-- C8: the total-detections counter increments exactly on a rising edge of
motion (motion present now, absent in the previous processed frame), and the
events log grows by one exactly then; consequently an unbroken run of
consecutive motion frames starting from a no-motion state counts exactly one
detection event and logs exactly one event record. -/
theorem C8_rising_edge (hh ww : Nat) :
    (∀ (s : MonState) (g bg : Grid), s.background = some bg →
        (stepGray hh ww s g).totalDetections
          = (if motionOf hh ww s g = true ∧ s.motionDetected = false
             then s.totalDetections + 1 else s.totalDetections)
        ∧ (stepGray hh ww s g).eventsLog.length
          = (if motionOf hh ww s g = true ∧ s.motionDetected = false
             then s.eventsLog.length + 1 else s.eventsLog.length))
    ∧ (∀ (s : MonState) (frames : List Grid),
        allMotionRun hh ww s frames = true → s.motionDetected = false → frames ≠ [] →
        (runGray hh ww s frames).totalDetections = s.totalDetections + 1
        ∧ (runGray hh ww s frames).eventsLog.length = s.eventsLog.length + 1) := by
  constructor
  · intro s g bg hbg
    rw [stepGray_some hh ww s g bg hbg]
    constructor
    · show (if motionOf hh ww s g && !s.motionDetected then s.totalDetections + 1
        else s.totalDetections)
          = (if motionOf hh ww s g = true ∧ s.motionDetected = false
             then s.totalDetections + 1 else s.totalDetections)
      cases hmo : motionOf hh ww s g <;> cases hmd : s.motionDetected <;> simp
    · show (if motionOf hh ww s g && !s.motionDetected then s.eventsLog ++ [s.detectionCount + 1]
        else s.eventsLog).length
          = (if motionOf hh ww s g = true ∧ s.motionDetected = false
             then s.eventsLog.length + 1 else s.eventsLog.length)
      cases hmo : motionOf hh ww s g <;> cases hmd : s.motionDetected <;> simp
  · intro s frames hall hmd hne
    cases frames with
    | nil => exact absurd rfl hne
    | cons g t =>
      rw [allMotionRun] at hall
      obtain ⟨hm, hrest⟩ := Bool.and_eq_true_iff.mp hall
      obtain ⟨bg, hbg⟩ := background_some_of_motion hh ww s g hm
      have hstep := stepGray_some hh ww s g bg hbg
      have hmd2 : (stepGray hh ww s g).motionDetected = true := by
        rw [hstep]
        exact hm
      obtain ⟨h1, h2, _⟩ := runGray_steady hh ww t (stepGray hh ww s g) hmd2 hrest
      rw [runGray_cons]
      constructor
      · rw [h1, hstep]
        show (if motionOf hh ww s g && !s.motionDetected then s.totalDetections + 1
          else s.totalDetections) = s.totalDetections + 1
        rw [hm, hmd]
        simp
      · rw [h2, hstep]
        show (if motionOf hh ww s g && !s.motionDetected then s.eventsLog ++ [s.detectionCount + 1]
          else s.eventsLog).length = s.eventsLog.length + 1
        rw [hm, hmd]
        simp

/-- An all-255 one-by-one frame, fully different from the all-zero
reference. -/
def gridFull : Grid := fun _ _ => 255

/-- C5, witness: starting from a fresh counter with the all-zero reference,
29 unchanged frames followed by a 30th distinct frame leave exactly that
30th frame as the background reference. -/
theorem C5_witness :
    (runGray 1 1 monStateRef (List.replicate 29 gridZero ++ [gridFull])).background
      = some gridFull :=
  (C5_background_adaptation 1 1).2.2 monStateRef gridZero (List.replicate 29 gridZero)
    gridFull rfl rfl (by simp)

/-- A concrete monitor state in motion terms: background is the all-zero
frame, no motion seen yet, sensitivity 50 and min_area 0 (the slider's
lowest settings flag any nonzero region). -/
def monStateEdge : MonState := ⟨some gridZero, 0, false, 0, 0, [], 50, 0⟩

/-- C8, witness: a concrete two-frame unbroken motion run (the all-255 frame
against the all-zero reference, twice) counts exactly one detection event
and logs exactly one record. -/
theorem C8_witness :
    (runGray 1 1 monStateEdge [gridFull, gridFull]).totalDetections
        = monStateEdge.totalDetections + 1
    ∧ (runGray 1 1 monStateEdge [gridFull, gridFull]).eventsLog.length
        = monStateEdge.eventsLog.length + 1 :=
  (C8_rising_edge 1 1).2 monStateEdge [gridFull, gridFull] (by decide) rfl
    (List.cons_ne_nil _ _)

end CoolX
